import Mathlib

/-!
Shallow embedding of the synchronization core of the collaborative drawing platform.

The authoritative per-room stroke store is the `DrawingState` class
(`server/drawing-state.ts`): completed strokes live in the `strokes` map,
in-progress strokes in `currentStrokes`, the undo history is the array
`history` of stroke ids and the redo stack is the array `undoneStrokes`.
The connection gateway (`server/server.ts`) routes socket events to it.
The client reconciliation layer is `WebSocketManager` (`client/websocket.js`):
it buffers outbound events in a bounded `offlineQueue` while disconnected,
replays them on reconnect, and throttles `cursor-move` sends; the canvas
`mousemove` handler lives in `client/main.js`.

JavaScript `Map` objects keyed by stroke id are embedded as functions
`String → Option α` (`SMap`); JS arrays used as stacks (push/pop at the end)
are embedded as Lean lists with the stack top at the end. `Date.now()`
becomes an explicit `now : Nat` argument, and the `uuidv4()` fallback id an
explicit `fresh : String` argument.
-/

namespace CollabDraw

/-- A recorded point of a stroke: canvas coordinates plus the `Date.now()`
wall-clock timestamp at which it was recorded. -/
structure Point where
  x : Int
  y : Int
  timestamp : Nat
deriving DecidableEq

/-- A stroke as stored by the server: id, owner, ordered points and style
metadata (`server/drawing-state.ts`, interface `Stroke`). -/
structure Stroke where
  id : String
  userId : String
  points : List Point
  color : String
  lineWidth : Nat
  tool : String
  startTime : Nat
  endTime : Option Nat
deriving DecidableEq

/-- A JavaScript `Map` keyed by string, embedded extensionally as a lookup
function: `set` overwrites the binding, `del` removes it. Iteration order of
the JS `Map` is irrelevant to every operation the claims touch. -/
def SMap (α : Type) : Type := String → Option α

/-- The empty map (`new Map()`). -/
def SMap.empty {α : Type} : SMap α := fun _ => none

/-- JS `map.get(k)` (`undefined` becomes `none`). -/
def SMap.get {α : Type} (m : SMap α) (k : String) : Option α := m k

/-- JS `map.set(k, v)`. -/
def SMap.set {α : Type} (m : SMap α) (k : String) (v : α) : SMap α :=
  fun k' => if k' = k then some v else m k'

/-- JS `map.delete(k)`. -/
def SMap.del {α : Type} (m : SMap α) (k : String) : SMap α :=
  fun k' => if k' = k then none else m k'

/-- Payload of a `draw-start` event as the server receives it
(`strokeId` is optional). -/
structure StartData where
  x : Int
  y : Int
  color : String
  lineWidth : Nat
  tool : String
  strokeId : Option String
deriving DecidableEq

/-- JS `a || b` on an optional string: `undefined` and the empty string are
falsy, so both fall through to the default. -/
def jsOr (o : Option String) (d : String) : String :=
  match o with
  | none => d
  | some s => if s = "" then d else s

/-- The per-room authoritative stroke store (`server/drawing-state.ts`,
class `DrawingState`): completed strokes, the history array of stroke ids,
the redo stack `undoneStrokes`, and the in-progress `currentStrokes`. -/
structure DrawingState where
  strokes : SMap Stroke
  history : List String
  undoneStrokes : List String
  currentStrokes : SMap Stroke

/-- The freshly constructed `DrawingState`: all four collections empty. -/
def DrawingState.init : DrawingState :=
  { strokes := SMap.empty, history := [], undoneStrokes := [], currentStrokes := SMap.empty }

/-- `DrawingState.startStroke`: resolves the stroke id (`data.strokeId ||
uuidv4()`), builds a one-point stroke and stores it in `currentStrokes`
(unconditionally overwriting any entry already at that id), returning the id. -/
def DrawingState.startStroke (s : DrawingState) (userId : String) (data : StartData)
    (fresh : String) (now : Nat) : DrawingState × String :=
  let strokeId := jsOr data.strokeId fresh
  let stroke : Stroke :=
    { id := strokeId, userId := userId,
      points := [{ x := data.x, y := data.y, timestamp := now }],
      color := data.color, lineWidth := data.lineWidth, tool := data.tool,
      startTime := now, endTime := none }
  ({ s with currentStrokes := s.currentStrokes.set strokeId stroke }, strokeId)

/-- `DrawingState.addPoint`: appends a timestamped point to the active stroke
if the id is in `currentStrokes`; otherwise does nothing. -/
def DrawingState.addPoint (s : DrawingState) (strokeId : String) (x y : Int)
    (now : Nat) : DrawingState :=
  match s.currentStrokes.get strokeId with
  | some stroke =>
      let stroke' := { stroke with points := stroke.points ++ [{ x := x, y := y, timestamp := now }] }
      { s with currentStrokes := s.currentStrokes.set strokeId stroke' }
  | none => s

/-- `DrawingState.endStroke`: if the id is active, stamps `endTime`, moves the
stroke into `strokes`, appends the id to `history`, removes it from
`currentStrokes` and resets `undoneStrokes` to `[]`; otherwise does nothing. -/
def DrawingState.endStroke (s : DrawingState) (strokeId : String) (now : Nat) : DrawingState :=
  match s.currentStrokes.get strokeId with
  | some stroke =>
      let stroke' := { stroke with endTime := some now }
      { s with strokes := s.strokes.set strokeId stroke',
               history := s.history ++ [strokeId],
               currentStrokes := s.currentStrokes.del strokeId,
               undoneStrokes := [] }
  | none => s

/-- `DrawingState.undo`: on empty `history` returns `null` with no mutation;
otherwise pops the last id off `history`, and if the id resolves in `strokes`
pushes it onto `undoneStrokes` and returns the stroke (when the id does not
resolve, the pop has already happened and `null` is returned). -/
def DrawingState.undo (s : DrawingState) : DrawingState × Option Stroke :=
  match s.history.getLast? with
  | none => (s, none)
  | some strokeId =>
      match s.strokes.get strokeId with
      | some stroke =>
          ({ s with history := s.history.dropLast,
                    undoneStrokes := s.undoneStrokes ++ [strokeId] }, some stroke)
      | none => ({ s with history := s.history.dropLast }, none)

/-- `DrawingState.redo`: mirror image of `undo`, popping `undoneStrokes` and
pushing onto `history`. -/
def DrawingState.redo (s : DrawingState) : DrawingState × Option Stroke :=
  match s.undoneStrokes.getLast? with
  | none => (s, none)
  | some strokeId =>
      match s.strokes.get strokeId with
      | some stroke =>
          ({ s with undoneStrokes := s.undoneStrokes.dropLast,
                    history := s.history ++ [strokeId] }, some stroke)
      | none => ({ s with undoneStrokes := s.undoneStrokes.dropLast }, none)

/-- `DrawingState.getHistory`: `history.map(id => strokes.get(id)!).filter(Boolean)`,
i.e. the completed strokes in history order, skipping unresolvable ids. -/
def DrawingState.getHistory (s : DrawingState) : List Stroke :=
  s.history.filterMap s.strokes.get

/-- Modelled from the spec: the `DrawingState.clear` method invoked by the
server handler for `clear` is not among the provided source files (the included
`drawing-state.ts` predates it); the spec says it "atomically empties
`strokes`, `activeStrokes`, `history`, `redoStack`". -/
def DrawingState.clear (_s : DrawingState) : DrawingState := DrawingState.init

/-- Reply produced by the gateway handler for `undo`: either an `undo` event
broadcast to every connection in the room, or an `undo-failed` message sent to
the requesting connection only. -/
inductive UndoReply where
  | broadcastUndo (strokeId : String) (userId : String)
  | failedToSender (msg : String)
deriving DecidableEq

/-- The gateway handler for the `undo` socket event (`server/server.ts`): applies
`DrawingState.undo`; a returned stroke is broadcast room-wide as `undo`, a
`null` result is answered with `undo-failed` to the sender only. -/
def handleUndo (s : DrawingState) (userId : String) : DrawingState × UndoReply :=
  match s.undo with
  | (s', some stroke) => (s', UndoReply.broadcastUndo stroke.id userId)
  | (s', none) => (s', UndoReply.failedToSender "Nothing to undo")

/-- A mutating operation on the stroke store, as dispatched by the gateway. -/
inductive Op where
  | start (userId : String) (data : StartData) (fresh : String) (now : Nat)
  | move (strokeId : String) (x y : Int) (now : Nat)
  | finish (strokeId : String) (now : Nat)
  | undoOp
  | redoOp

/-- Apply one operation to the store, discarding the returned value. -/
def DrawingState.applyOp (s : DrawingState) : Op → DrawingState
  | Op.start u d f n => (s.startStroke u d f n).1
  | Op.move id x y n => s.addPoint id x y n
  | Op.finish id n => s.endStroke id n
  | Op.undoOp => s.undo.1
  | Op.redoOp => s.redo.1

/-- Run a sequence of operations from the empty initial store. -/
def DrawingState.runOps (ops : List Op) : DrawingState :=
  ops.foldl DrawingState.applyOp DrawingState.init

/-- A store is reachable when some operation sequence from the empty initial
store produces it. -/
def Reachable (s : DrawingState) : Prop := ∃ ops, DrawingState.runOps ops = s

/-- An entry of the client offline queue (`queueEvent` stores
`{type, data, timestamp}`; the three call sites store coordinates and/or the
stroke id, so the payloads form a closed set of three shapes). -/
inductive QueuedEvent where
  | qstart (x y : Int) (strokeId : String) (timestamp : Nat)
  | qmove (x y : Int) (strokeId : String) (timestamp : Nat)
  | qend (strokeId : String) (timestamp : Nat)
deriving DecidableEq

/-- `this.maxQueueSize = 100` in the `WebSocketManager` constructor. -/
def maxQueueSize : Nat := 100

/-- `WebSocketManager.queueEvent`: when the queue has reached `maxQueueSize`
the oldest entry is shifted off, then the new entry is pushed at the end. -/
def queueEvent (q : List QueuedEvent) (e : QueuedEvent) : List QueuedEvent :=
  if maxQueueSize ≤ q.length then q.tail ++ [e] else q ++ [e]

/-- A message emitted by the client on its socket. -/
inductive Emit where
  | drawStart (x y : Int) (color : String) (lineWidth : Nat) (tool : String) (strokeId : String)
  | drawMove (x y : Int) (strokeId : String)
  | drawEnd (strokeId : String)
  | cursorMove (x y : Int)
  | joinRoomMsg (roomId : String)
deriving DecidableEq

/-- Whether an emitted message is one of the three `draw-*` events. -/
def Emit.isDraw : Emit → Bool
  | Emit.drawStart _ _ _ _ _ _ => true
  | Emit.drawMove _ _ _ => true
  | Emit.drawEnd _ => true
  | _ => false

/-- Whether an emitted message is a `cursor-move`. -/
def Emit.isCursor : Emit → Bool
  | Emit.cursorMove _ _ => true
  | _ => false

/-- The client-side `WebSocketManager` state relevant to the claims:
connection flag, current room, current style settings (held by the canvas
manager and read when a queued `draw-start` is replayed), the bounded offline
queue, and the `lastCursorUpdate` throttle timestamp (initially `undefined`). -/
structure WSClient where
  connected : Bool
  currentRoom : String
  tool : String
  color : String
  lineWidth : Nat
  offlineQueue : List QueuedEvent
  lastCursorUpdate : Option Nat
  reconnectAttempts : Nat
  reconnectDelay : Nat

/-- `WebSocketManager.startDrawing`: when connected, emits `draw-start` with
the current style; when disconnected, queues the event instead. -/
def startDrawing (c : WSClient) (x y : Int) (strokeId : String) (now : Nat) :
    WSClient × List Emit :=
  if c.connected then
    (c, [Emit.drawStart x y c.color c.lineWidth c.tool strokeId])
  else
    ({ c with offlineQueue := queueEvent c.offlineQueue (QueuedEvent.qstart x y strokeId now) }, [])

/-- JS truthiness test `!this.lastCursorUpdate`: true for `undefined` and for
the number `0`. -/
def jsFalsyNat (o : Option Nat) : Bool :=
  match o with
  | none => true
  | some t => t == 0

/-- `WebSocketManager.drawMove`: when connected, emits `draw-move` and — if no
cursor update was sent within the last 100ms (`!lastCursorUpdate ||
now - lastCursorUpdate > 100`) — also a `cursor-move`, recording `now` as the
new `lastCursorUpdate`; when disconnected, queues the event. -/
def drawMove (c : WSClient) (x y : Int) (strokeId : String) (now : Nat) :
    WSClient × List Emit :=
  if c.connected then
    if jsFalsyNat c.lastCursorUpdate || decide (100 < now - c.lastCursorUpdate.getD 0) then
      ({ c with lastCursorUpdate := some now },
       [Emit.drawMove x y strokeId, Emit.cursorMove x y])
    else
      (c, [Emit.drawMove x y strokeId])
  else
    ({ c with offlineQueue := queueEvent c.offlineQueue (QueuedEvent.qmove x y strokeId now) }, [])

/-- `WebSocketManager.endDrawing`: when connected, emits `draw-end`; when
disconnected, queues the event. -/
def endDrawing (c : WSClient) (strokeId : String) (now : Nat) : WSClient × List Emit :=
  if c.connected then
    (c, [Emit.drawEnd strokeId])
  else
    ({ c with offlineQueue := queueEvent c.offlineQueue (QueuedEvent.qend strokeId now) }, [])

/-- One step of the `forEach` loop in `processOfflineQueue`: dispatch a queued event to
the matching send method, accumulating the emitted messages. -/
def replayStep (now : Nat) (acc : WSClient × List Emit) (e : QueuedEvent) :
    WSClient × List Emit :=
  match e with
  | QueuedEvent.qstart x y sid _ =>
      let r := startDrawing acc.1 x y sid now
      (r.1, acc.2 ++ r.2)
  | QueuedEvent.qmove x y sid _ =>
      let r := drawMove acc.1 x y sid now
      (r.1, acc.2 ++ r.2)
  | QueuedEvent.qend sid _ =>
      let r := endDrawing acc.1 sid now
      (r.1, acc.2 ++ r.2)

/-- `WebSocketManager.processOfflineQueue`: nothing to do on an empty queue;
otherwise replay the snapshot of the queue in order and reset the queue to
`[]`. -/
def processOfflineQueue (c : WSClient) (now : Nat) : WSClient × List Emit :=
  if c.offlineQueue = [] then (c, [])
  else
    let r := c.offlineQueue.foldl (replayStep now) (c, [])
    ({ r.1 with offlineQueue := [] }, r.2)

/-- `WebSocketManager.handleConnect`: marks the transport connected, resets
the reconnection counters, re-issues `join-room` for the current room, then
drains the offline queue. -/
def handleConnect (c : WSClient) (now : Nat) : WSClient × List Emit :=
  let c1 : WSClient :=
    { c with connected := true, reconnectAttempts := 0, reconnectDelay := 1000 }
  let r := processOfflineQueue c1 now
  (r.1, Emit.joinRoomMsg c1.currentRoom :: r.2)

/-- The canvas `mousemove` handler in `client/main.js`: whenever the manager
reports connected it emits a `cursor-move` with the pointer coordinates
directly on the socket, with no throttling and no state update. -/
def mousemoveHandler (c : WSClient) (x y : Int) : List Emit :=
  if c.connected then [Emit.cursorMove x y] else []

/-- Emissions of a burst of `mousemove` events handled by `client/main.js`,
in order. -/
def mousemoveBurst (c : WSClient) (events : List (Int × Int)) : List Emit :=
  events.foldl (fun out e => out ++ mousemoveHandler c e.1 e.2) []

/-- The `draw-*` emission a queued event turns into when replayed by a
connected client with the style settings of `c`. -/
def QueuedEvent.toEmit (c : WSClient) : QueuedEvent → Emit
  | QueuedEvent.qstart x y sid _ => Emit.drawStart x y c.color c.lineWidth c.tool sid
  | QueuedEvent.qmove x y sid _ => Emit.drawMove x y sid
  | QueuedEvent.qend sid _ => Emit.drawEnd sid

/-- Disjointness of the completed and in-progress stroke maps by id
(spec invariant (a)). -/
def DisjointMaps (s : DrawingState) : Prop :=
  ∀ id, (s.strokes.get id).isSome = true → (s.currentStrokes.get id).isSome = true → False

/-- Closure of the id stacks under the completed-stroke map: every id in
`history` or on the redo stack resolves in `strokes`. -/
def HistClosed (s : DrawingState) : Prop :=
  (∀ id ∈ s.history, (s.strokes.get id).isSome = true) ∧
  (∀ id ∈ s.undoneStrokes, (s.strokes.get id).isSome = true)

theorem SMap.get_set {α : Type} (m : SMap α) (k : String) (v : α) (k' : String) :
    (m.set k v).get k' = if k' = k then some v else m.get k' := rfl

theorem SMap.get_del {α : Type} (m : SMap α) (k : String) (k' : String) :
    (m.del k).get k' = if k' = k then none else m.get k' := rfl

theorem getLast?_decomp {α : Type} {l : List α} {a : α} (h : l.getLast? = some a) :
    l.dropLast ++ [a] = l ∧ a ∈ l := by
  have hne : l ≠ [] := by
    intro h0
    subst h0
    simp at h
  have hg : l.getLast hne = a := by
    have he := List.getLast?_eq_getLast l hne
    rw [he] at h
    exact Option.some_inj.mp h
  refine ⟨?_, ?_⟩
  · rw [← hg]
    exact List.dropLast_append_getLast hne
  · rw [← hg]
    exact List.getLast_mem hne

theorem length_filterMap_of_isSome {α β : Type} (f : α → Option β) :
    ∀ l : List α, (∀ a ∈ l, (f a).isSome = true) → (l.filterMap f).length = l.length := by
  intro l
  induction l with
  | nil => intro _; rfl
  | cons a t ih =>
    intro h
    obtain ⟨b, hb⟩ := Option.isSome_iff_exists.mp (h a (List.mem_cons_self a t))
    have ht := ih (fun x hx => h x (List.mem_cons_of_mem a hx))
    simp [List.filterMap_cons, hb, ht]

theorem addPoint_of_get_none (s : DrawingState) {strokeId : String} (x y : Int) (now : Nat)
    (hc : s.currentStrokes.get strokeId = none) :
    s.addPoint strokeId x y now = s := by
  unfold DrawingState.addPoint
  rw [hc]

theorem addPoint_of_get_some (s : DrawingState) {strokeId : String} (x y : Int) (now : Nat)
    {stroke : Stroke} (hc : s.currentStrokes.get strokeId = some stroke) :
    s.addPoint strokeId x y now =
      { s with
          currentStrokes := s.currentStrokes.set strokeId ({ stroke with points := stroke.points ++ [{ x := x, y := y, timestamp := now }] }) } := by
  unfold DrawingState.addPoint
  rw [hc]

theorem endStroke_of_get_none (s : DrawingState) {strokeId : String} (now : Nat)
    (hc : s.currentStrokes.get strokeId = none) :
    s.endStroke strokeId now = s := by
  unfold DrawingState.endStroke
  rw [hc]

theorem endStroke_of_get_some (s : DrawingState) {strokeId : String} (now : Nat)
    {stroke : Stroke} (hc : s.currentStrokes.get strokeId = some stroke) :
    s.endStroke strokeId now =
      { s with strokes := s.strokes.set strokeId ({ stroke with endTime := some now }),
               history := s.history ++ [strokeId],
               currentStrokes := s.currentStrokes.del strokeId,
               undoneStrokes := [] } := by
  unfold DrawingState.endStroke
  rw [hc]

theorem undo_of_empty (s : DrawingState) (hl : s.history.getLast? = none) :
    s.undo = (s, none) := by
  unfold DrawingState.undo
  rw [hl]

theorem undo_of_get_some (s : DrawingState) {sid : String} {stroke : Stroke}
    (hl : s.history.getLast? = some sid) (hs : s.strokes.get sid = some stroke) :
    s.undo = ({ s with
                  history := s.history.dropLast,
                  undoneStrokes := s.undoneStrokes ++ [sid] }, some stroke) := by
  unfold DrawingState.undo
  rw [hl]
  dsimp only
  rw [hs]

theorem undo_of_get_none (s : DrawingState) {sid : String}
    (hl : s.history.getLast? = some sid) (hs : s.strokes.get sid = none) :
    s.undo = ({ s with history := s.history.dropLast }, none) := by
  unfold DrawingState.undo
  rw [hl]
  dsimp only
  rw [hs]

theorem redo_of_empty (s : DrawingState) (hl : s.undoneStrokes.getLast? = none) :
    s.redo = (s, none) := by
  unfold DrawingState.redo
  rw [hl]

theorem redo_of_get_some (s : DrawingState) {sid : String} {stroke : Stroke}
    (hl : s.undoneStrokes.getLast? = some sid) (hs : s.strokes.get sid = some stroke) :
    s.redo = ({ s with
                  undoneStrokes := s.undoneStrokes.dropLast,
                  history := s.history ++ [sid] }, some stroke) := by
  unfold DrawingState.redo
  rw [hl]
  dsimp only
  rw [hs]

theorem redo_of_get_none (s : DrawingState) {sid : String}
    (hl : s.undoneStrokes.getLast? = some sid) (hs : s.strokes.get sid = none) :
    s.redo = ({ s with undoneStrokes := s.undoneStrokes.dropLast }, none) := by
  unfold DrawingState.redo
  rw [hl]
  dsimp only
  rw [hs]

theorem histClosed_init : HistClosed DrawingState.init := by
  constructor <;> intro id hid <;> simp [DrawingState.init] at hid

theorem histClosed_applyOp (s : DrawingState) (op : Op) (h : HistClosed s) :
    HistClosed (s.applyOp op) := by
  obtain ⟨h1, h2⟩ := h
  cases op with
  | start u d f n =>
    exact ⟨h1, h2⟩
  | move id x y n =>
    show HistClosed (s.addPoint id x y n)
    cases hc : s.currentStrokes.get id with
    | none => rw [addPoint_of_get_none s x y n hc]; exact ⟨h1, h2⟩
    | some stroke => rw [addPoint_of_get_some s x y n hc]; exact ⟨h1, h2⟩
  | finish id n =>
    show HistClosed (s.endStroke id n)
    cases hc : s.currentStrokes.get id with
    | none => rw [endStroke_of_get_none s n hc]; exact ⟨h1, h2⟩
    | some stroke =>
      rw [endStroke_of_get_some s n hc]
      refine ⟨?_, ?_⟩
      · intro j hj
        rw [SMap.get_set]
        by_cases hji : j = id
        · simp [hji]
        · simp only [hji, if_false]
          rcases List.mem_append.mp hj with hm | hm
          · exact h1 j hm
          · exact absurd (by simpa using hm) hji
      · intro j hj
        simp at hj
  | undoOp =>
    show HistClosed s.undo.1
    cases hl : s.history.getLast? with
    | none => rw [undo_of_empty s hl]; exact ⟨h1, h2⟩
    | some sid =>
      obtain ⟨hdec, hmem⟩ := getLast?_decomp hl
      cases hs : s.strokes.get sid with
      | some stroke =>
        rw [undo_of_get_some s hl hs]
        refine ⟨?_, ?_⟩
        · intro j hj
          apply h1
          rw [← hdec]
          exact List.mem_append_left _ hj
        · intro j hj
          rcases List.mem_append.mp hj with hm | hm
          · exact h2 j hm
          · have hje : j = sid := by simpa using hm
            subst hje
            exact h1 j hmem
      | none =>
        rw [undo_of_get_none s hl hs]
        refine ⟨?_, h2⟩
        intro j hj
        apply h1
        rw [← hdec]
        exact List.mem_append_left _ hj
  | redoOp =>
    show HistClosed s.redo.1
    cases hl : s.undoneStrokes.getLast? with
    | none => rw [redo_of_empty s hl]; exact ⟨h1, h2⟩
    | some sid =>
      obtain ⟨hdec, hmem⟩ := getLast?_decomp hl
      cases hs : s.strokes.get sid with
      | some stroke =>
        rw [redo_of_get_some s hl hs]
        refine ⟨?_, ?_⟩
        · intro j hj
          rcases List.mem_append.mp hj with hm | hm
          · exact h1 j hm
          · have hje : j = sid := by simpa using hm
            subst hje
            exact h2 j hmem
        · intro j hj
          apply h2
          rw [← hdec]
          exact List.mem_append_left _ hj
      | none =>
        rw [redo_of_get_none s hl hs]
        refine ⟨h1, ?_⟩
        intro j hj
        apply h2
        rw [← hdec]
        exact List.mem_append_left _ hj

theorem histClosed_foldl (ops : List Op) :
    ∀ s : DrawingState, HistClosed s → HistClosed (ops.foldl DrawingState.applyOp s) := by
  induction ops with
  | nil => intro s h; exact h
  | cons op rest ih =>
    intro s h
    exact ih _ (histClosed_applyOp s op h)

theorem histClosed_of_reachable {s : DrawingState} (h : Reachable s) : HistClosed s := by
  obtain ⟨ops, hops⟩ := h
  rw [← hops]
  exact histClosed_foldl ops DrawingState.init histClosed_init

/-- Concrete `draw-start` payload used by the concrete scenarios below. -/
def dataS1 : StartData :=
  { x := 0, y := 0, color := "#000000", lineWidth := 5, tool := "brush", strokeId := some "s1" }

/-- A second `draw-start` payload reusing the stroke id `s1`. -/
def dataS1b : StartData :=
  { x := 5, y := 5, color := "#ff0000", lineWidth := 3, tool := "brush", strokeId := some "s1" }

/-- C1: For every `DrawingState`, `clear()` empties all four collections
(`strokes`, `currentStrokes`, `history`, `undoneStrokes`) simultaneously.
Since `clear` is spec-modelled (its body is not among the source files), this
holds for every state, in particular every reachable one. -/
theorem clear_empties_all (s : DrawingState) :
    (s.clear).strokes = SMap.empty ∧ (s.clear).history = [] ∧
    (s.clear).undoneStrokes = [] ∧ (s.clear).currentStrokes = SMap.empty :=
  ⟨rfl, rfl, rfl, rfl⟩

/-- State with stroke `s1` active and holding two accumulated points. -/
def c2sTwo : DrawingState :=
  ((DrawingState.init.startStroke "u" dataS1 "f" 0).1).addPoint "s1" 1 1 10

/-- State after calling `startStroke` again with the already-active id `s1`. -/
def c2sRe : DrawingState := (c2sTwo.startStroke "u" dataS1b "g" 20).1

/-- C2 counterexample: calling `startStroke` with an id that is already active
is not a no-op — the active entry (with its two accumulated points) is
replaced, so the entry differs afterwards. -/
theorem startStroke_active_not_noop :
    c2sRe.currentStrokes.get "s1" ≠ c2sTwo.currentStrokes.get "s1" := by
  decide

/-- C2 amended: `startStroke` unconditionally overwrites: after the call the
active entry at the returned id is a fresh stroke holding exactly the one new
first point, whatever was there before. -/
theorem startStroke_overwrites (s : DrawingState) (userId : String) (d : StartData)
    (fresh : String) (now : Nat) :
    ((s.startStroke userId d fresh now).1).currentStrokes.get
        ((s.startStroke userId d fresh now).2) =
      some { id := jsOr d.strokeId fresh, userId := userId,
             points := [{ x := d.x, y := d.y, timestamp := now }],
             color := d.color, lineWidth := d.lineWidth, tool := d.tool,
             startTime := now, endTime := none } := by
  simp [DrawingState.startStroke, SMap.get, SMap.set]

/-- Reachable state whose redo stack is the non-empty `["s1"]`: draw `s1`,
finish it, then undo it. -/
def c4State : DrawingState :=
  DrawingState.runOps [Op.start "u" dataS1 "f" 0, Op.finish "s1" 1, Op.undoOp]

/-- C4 counterexample: `endStroke` on an id that is not active is a no-op, so
it does not empty a non-empty redo stack — refuting "endStroke always empties
redoStack" for arbitrary ids. -/
theorem endStroke_not_always_clears_redo :
    (c4State.endStroke "s2" 99).undoneStrokes ≠ [] := by
  decide

/-- C4 amended: `endStroke(id)` empties the redo stack exactly when `id` is
active; when `id` is not active the whole call is a no-op, leaving the redo
stack (and everything else) unchanged. -/
theorem endStroke_clears_redo_iff_active (s : DrawingState) (strokeId : String) (now : Nat) :
    ((s.currentStrokes.get strokeId).isSome = true →
      (s.endStroke strokeId now).undoneStrokes = []) ∧
    (s.currentStrokes.get strokeId = none → s.endStroke strokeId now = s) := by
  constructor
  · intro hac
    obtain ⟨stroke, hst⟩ := Option.isSome_iff_exists.mp hac
    rw [endStroke_of_get_some s now hst]
  · intro hnone
    exact endStroke_of_get_none s now hnone

/-- Reachable state with stroke `s1` active. -/
def c4wState : DrawingState := DrawingState.runOps [Op.start "u" dataS1 "f" 0]

/-- Witness for the amended C4 theorem at a concrete active stroke. -/
theorem endStroke_clears_redo_iff_active_witness :
    (c4wState.currentStrokes.get "s1").isSome = true ∧
    (c4wState.endStroke "s1" 5).undoneStrokes = [] :=
  ⟨by decide, (endStroke_clears_redo_iff_active c4wState "s1" 5).1 (by decide)⟩

/-- C9: `undo()` on an empty history returns the `null` signal with no
mutation whatsoever, and the gateway handler answers the requesting
connection only, with `undo-failed`, performing no room-wide broadcast. -/
theorem undo_empty_history_failed_reply (s : DrawingState) (userId : String)
    (h : s.history = []) :
    s.undo = (s, none) ∧
    handleUndo s userId = (s, UndoReply.failedToSender "Nothing to undo") := by
  have hl : s.history.getLast? = none := by rw [h]; rfl
  have hu := undo_of_empty s hl
  refine ⟨hu, ?_⟩
  unfold handleUndo
  rw [hu]

/-- Witness for C9 at the empty initial state. -/
theorem undo_empty_history_failed_reply_witness :
    DrawingState.init.history = [] ∧
    DrawingState.init.undo = (DrawingState.init, none) ∧
    handleUndo DrawingState.init "u" =
      (DrawingState.init, UndoReply.failedToSender "Nothing to undo") :=
  ⟨rfl, (undo_empty_history_failed_reply DrawingState.init "u" rfl).1,
    (undo_empty_history_failed_reply DrawingState.init "u" rfl).2⟩

/-- Operation sequence that reuses the completed id `s1` in a fresh
`startStroke`. -/
def c3Ops : List Op :=
  [Op.start "u" dataS1 "f" 0, Op.finish "s1" 1, Op.start "u" dataS1b "g" 2]

/-- The state it reaches: `s1` is simultaneously a completed and an active
stroke id. -/
def c3State : DrawingState := DrawingState.runOps c3Ops

/-- C3 counterexample: a reachable state in which the completed map and the
active map are NOT disjoint — `startStroke` never checks whether its id is
already a completed stroke. -/
theorem disjointMaps_not_invariant :
    Reachable c3State ∧ ¬ DisjointMaps c3State :=
  ⟨⟨c3Ops, rfl⟩, fun hd => hd "s1" (by decide) (by decide)⟩

/-- C3 amended: disjointness of the two maps is preserved by `addPoint`,
`endStroke`, `undo` and `redo` unconditionally, and by `startStroke` provided
the id it resolves to is not already a key of the completed map (the proviso
the counterexample shows to be necessary). -/
theorem disjointMaps_preserved (s : DrawingState) (op : Op) (hd : DisjointMaps s)
    (hstart : ∀ u d f n, op = Op.start u d f n → s.strokes.get (jsOr d.strokeId f) = none) :
    DisjointMaps (s.applyOp op) := by
  cases op with
  | start u d f n =>
    have hnone := hstart u d f n rfl
    show DisjointMaps (s.startStroke u d f n).1
    simp only [DrawingState.startStroke]
    intro id h1 h2
    rw [SMap.get_set] at h2
    by_cases hid : id = jsOr d.strokeId f
    · subst hid
      rw [hnone] at h1
      simp at h1
    · rw [if_neg hid] at h2
      exact hd id h1 h2
  | move id x y n =>
    show DisjointMaps (s.addPoint id x y n)
    cases hc : s.currentStrokes.get id with
    | none => rw [addPoint_of_get_none s x y n hc]; exact hd
    | some stroke =>
      rw [addPoint_of_get_some s x y n hc]
      intro j h1 h2
      rw [SMap.get_set] at h2
      by_cases hj : j = id
      · subst hj
        exact hd j h1 (by rw [hc]; rfl)
      · rw [if_neg hj] at h2
        exact hd j h1 h2
  | finish id n =>
    show DisjointMaps (s.endStroke id n)
    cases hc : s.currentStrokes.get id with
    | none => rw [endStroke_of_get_none s n hc]; exact hd
    | some stroke =>
      rw [endStroke_of_get_some s n hc]
      intro j h1 h2
      rw [SMap.get_del] at h2
      by_cases hj : j = id
      · rw [if_pos hj] at h2
        simp at h2
      · rw [if_neg hj] at h2
        rw [SMap.get_set, if_neg hj] at h1
        exact hd j h1 h2
  | undoOp =>
    show DisjointMaps s.undo.1
    cases hl : s.history.getLast? with
    | none => rw [undo_of_empty s hl]; exact hd
    | some sid =>
      cases hs : s.strokes.get sid with
      | some stroke => rw [undo_of_get_some s hl hs]; exact hd
      | none => rw [undo_of_get_none s hl hs]; exact hd
  | redoOp =>
    show DisjointMaps s.redo.1
    cases hl : s.undoneStrokes.getLast? with
    | none => rw [redo_of_empty s hl]; exact hd
    | some sid =>
      cases hs : s.strokes.get sid with
      | some stroke => rw [redo_of_get_some s hl hs]; exact hd
      | none => rw [redo_of_get_none s hl hs]; exact hd

/-- Witness for the amended C3 theorem: from the empty store, a `startStroke`
whose id is fresh preserves disjointness. -/
theorem disjointMaps_preserved_witness :
    DisjointMaps DrawingState.init ∧
    DisjointMaps (DrawingState.init.applyOp (Op.start "u" dataS1 "f" 0)) := by
  have hinit : DisjointMaps DrawingState.init := by
    intro id h1 h2
    simp [DrawingState.init, SMap.get, SMap.empty] at h1
  refine ⟨hinit, ?_⟩
  apply disjointMaps_preserved DrawingState.init (Op.start "u" dataS1 "f" 0) hinit
  intro u d f n heq
  cases heq
  rfl

/-- C10: in every reachable store, every id in `history` and on the redo
stack resolves in the completed-stroke map; consequently `undo` returns a
stroke exactly when `history` is non-empty, `redo` exactly when the redo
stack is non-empty, and `getHistory` yields exactly one stroke per history
entry. -/
theorem history_ids_resolve (s : DrawingState) (h : Reachable s) :
    (∀ id ∈ s.history, (s.strokes.get id).isSome = true) ∧
    (∀ id ∈ s.undoneStrokes, (s.strokes.get id).isSome = true) ∧
    (s.undo.2.isSome = true ↔ s.history ≠ []) ∧
    (s.redo.2.isSome = true ↔ s.undoneStrokes ≠ []) ∧
    s.getHistory.length = s.history.length := by
  have hc := histClosed_of_reachable h
  refine ⟨hc.1, hc.2, ?_, ?_, ?_⟩
  · constructor
    · intro hu h0
      have hl : s.history.getLast? = none := by rw [h0]; rfl
      rw [undo_of_empty s hl] at hu
      simp at hu
    · intro hne
      have hl := List.getLast?_eq_getLast s.history hne
      have hmem := List.getLast_mem hne
      obtain ⟨st, hst⟩ := Option.isSome_iff_exists.mp (hc.1 _ hmem)
      rw [undo_of_get_some s hl hst]
      rfl
  · constructor
    · intro hr h0
      have hl : s.undoneStrokes.getLast? = none := by rw [h0]; rfl
      rw [redo_of_empty s hl] at hr
      simp at hr
    · intro hne
      have hl := List.getLast?_eq_getLast s.undoneStrokes hne
      have hmem := List.getLast_mem hne
      obtain ⟨st, hst⟩ := Option.isSome_iff_exists.mp (hc.2 _ hmem)
      rw [redo_of_get_some s hl hst]
      rfl
  · show (s.history.filterMap s.strokes.get).length = s.history.length
    exact length_filterMap_of_isSome s.strokes.get s.history hc.1

/-- A second concrete `draw-start` payload with stroke id `s2`. -/
def dataS2 : StartData :=
  { x := 2, y := 3, color := "#00ff00", lineWidth := 2, tool := "eraser", strokeId := some "s2" }

/-- Operations reaching a state with `history = ["s1"]` and redo stack
`["s2"]`. -/
def c10Ops : List Op :=
  [Op.start "u" dataS1 "f" 0, Op.finish "s1" 1,
   Op.start "v" dataS2 "g" 2, Op.finish "s2" 3, Op.undoOp]

/-- The state those operations reach. -/
def c10State : DrawingState := DrawingState.runOps c10Ops

/-- Witness for C10 at a concrete reachable state with non-empty history and
redo stack. -/
theorem history_ids_resolve_witness :
    Reachable c10State ∧
    (c10State.undo.2.isSome = true ↔ c10State.history ≠ []) ∧
    (c10State.redo.2.isSome = true ↔ c10State.undoneStrokes ≠ []) ∧
    c10State.getHistory.length = c10State.history.length :=
  ⟨⟨c10Ops, rfl⟩,
    (history_ids_resolve c10State ⟨c10Ops, rfl⟩).2.2.1,
    (history_ids_resolve c10State ⟨c10Ops, rfl⟩).2.2.2.1,
    (history_ids_resolve c10State ⟨c10Ops, rfl⟩).2.2.2.2⟩

/-- C5: from any reachable store with non-empty history, `undo()` followed
immediately by `redo()` returns the very stroke `undo()` removed and restores
the store — in particular the same stroke id returns to the tail of
`history`. -/
theorem undo_redo_roundtrip (s : DrawingState) (h : Reachable s) (hne : s.history ≠ []) :
    ∃ stroke, s.undo.2 = some stroke ∧ (s.undo.1).redo = (s, some stroke) := by
  have hc := histClosed_of_reachable h
  have hl := List.getLast?_eq_getLast s.history hne
  have hmem := List.getLast_mem hne
  obtain ⟨st, hst⟩ := Option.isSome_iff_exists.mp (hc.1 _ hmem)
  have hu := undo_of_get_some s hl hst
  refine ⟨st, ?_, ?_⟩
  · rw [hu]
  · rw [hu]
    have hl1 : (s.undoneStrokes ++ [s.history.getLast hne]).getLast? =
        some (s.history.getLast hne) := List.getLast?_concat _
    have hr := redo_of_get_some
      (DrawingState.mk s.strokes s.history.dropLast
        (s.undoneStrokes ++ [s.history.getLast hne]) s.currentStrokes) hl1 hst
    show (DrawingState.mk s.strokes s.history.dropLast
        (s.undoneStrokes ++ [s.history.getLast hne]) s.currentStrokes).redo = (s, some st)
    rw [hr]
    show (({ strokes := s.strokes,
             history := s.history.dropLast ++ [s.history.getLast hne],
             undoneStrokes := (s.undoneStrokes ++ [s.history.getLast hne]).dropLast,
             currentStrokes := s.currentStrokes } : DrawingState), some st) = (s, some st)
    rw [List.dropLast_concat, List.dropLast_append_getLast hne]

/-- Operations reaching a state with one completed stroke in history. -/
def c5Ops : List Op := [Op.start "u" dataS1 "f" 0, Op.finish "s1" 1]

/-- The state they reach (`history = ["s1"]`). -/
def c5State : DrawingState := DrawingState.runOps c5Ops

/-- Witness for C5 at a concrete reachable one-stroke state. -/
theorem undo_redo_roundtrip_witness :
    Reachable c5State ∧ c5State.history ≠ [] ∧
    ∃ stroke, c5State.undo.2 = some stroke ∧
      (c5State.undo.1).redo = (c5State, some stroke) :=
  ⟨⟨c5Ops, rfl⟩, by decide, undo_redo_roundtrip c5State ⟨c5Ops, rfl⟩ (by decide)⟩

/-- C6: starting from the empty offline queue, no sequence of enqueues ever
drives the length above the capacity of 100; and an enqueue performed while
the queue is full drops exactly the single oldest entry and appends the new
one, keeping every other entry in order. -/
theorem offlineQueue_bounded :
    (∀ es : List QueuedEvent, (es.foldl queueEvent []).length ≤ maxQueueSize) ∧
    (∀ (q : List QueuedEvent) (e : QueuedEvent), q.length = maxQueueSize →
      queueEvent q e = q.tail ++ [e]) := by
  constructor
  · have step : ∀ (q : List QueuedEvent) (e : QueuedEvent),
        q.length ≤ maxQueueSize → (queueEvent q e).length ≤ maxQueueSize := by
      intro q e hq
      unfold queueEvent
      by_cases hfull : maxQueueSize ≤ q.length
      · rw [if_pos hfull]
        have hq100 : q.length = maxQueueSize := le_antisymm hq hfull
        simp only [List.length_append, List.length_tail, List.length_cons, List.length_nil]
        simp only [maxQueueSize] at hq100 ⊢
        omega
      · rw [if_neg hfull]
        simp only [List.length_append, List.length_cons, List.length_nil]
        simp only [maxQueueSize] at hfull ⊢
        omega
    have gen : ∀ (es q : List QueuedEvent), q.length ≤ maxQueueSize →
        (es.foldl queueEvent q).length ≤ maxQueueSize := by
      intro es
      induction es with
      | nil => intro q h; exact h
      | cons e rest ih => intro q h; exact ih _ (step q e h)
    intro es
    exact gen es [] (by simp [maxQueueSize])
  · intro q e hq
    unfold queueEvent
    rw [if_pos (le_of_eq hq.symm)]

/-- A concrete queued event. -/
def evW : QueuedEvent := QueuedEvent.qend "s" 0

/-- Witness for C6 at a concrete full queue of 100 entries. -/
theorem offlineQueue_bounded_witness :
    (List.replicate 100 evW).length = maxQueueSize ∧
    queueEvent (List.replicate 100 evW) evW = (List.replicate 100 evW).tail ++ [evW] :=
  ⟨by simp [maxQueueSize], offlineQueue_bounded.2 _ _ (by simp [maxQueueSize])⟩

theorem toEmit_congr (c c' : WSClient) (hcol : c'.color = c.color)
    (hlw : c'.lineWidth = c.lineWidth) (ht : c'.tool = c.tool) :
    QueuedEvent.toEmit c' = QueuedEvent.toEmit c := by
  funext e
  cases e <;> simp [QueuedEvent.toEmit, hcol, hlw, ht]

theorem replay_foldl (now : Nat) (q : List QueuedEvent) :
    ∀ (c : WSClient) (out : List Emit), c.connected = true →
      (q.foldl (replayStep now) (c, out)).1.connected = true ∧
      (q.foldl (replayStep now) (c, out)).1.color = c.color ∧
      (q.foldl (replayStep now) (c, out)).1.lineWidth = c.lineWidth ∧
      (q.foldl (replayStep now) (c, out)).1.tool = c.tool ∧
      (q.foldl (replayStep now) (c, out)).1.offlineQueue = c.offlineQueue ∧
      (q.foldl (replayStep now) (c, out)).2.filter Emit.isDraw
        = out.filter Emit.isDraw ++ q.map (QueuedEvent.toEmit c) := by
  induction q with
  | nil =>
    intro c out hc
    simpa using hc
  | cons e rest ih =>
    intro c out hc
    rw [List.foldl_cons]
    cases e with
    | qstart x y sid t =>
      have hstep : replayStep now (c, out) (QueuedEvent.qstart x y sid t) =
          (c, out ++ [Emit.drawStart x y c.color c.lineWidth c.tool sid]) := by
        simp [replayStep, startDrawing, hc]
      rw [hstep]
      obtain ⟨i1, i2, i3, i4, i5, i6⟩ := ih c (out ++ [Emit.drawStart x y c.color c.lineWidth c.tool sid]) hc
      refine ⟨i1, i2, i3, i4, i5, ?_⟩
      rw [i6]
      simp [List.filter_append, Emit.isDraw, QueuedEvent.toEmit]
    | qmove x y sid t =>
      cases hcond : (jsFalsyNat c.lastCursorUpdate || decide (100 < now - c.lastCursorUpdate.getD 0)) with
      | true =>
        have hstep : replayStep now (c, out) (QueuedEvent.qmove x y sid t) =
            ({ c with lastCursorUpdate := some now },
             out ++ [Emit.drawMove x y sid, Emit.cursorMove x y]) := by
          simp [replayStep, drawMove, hc, hcond]
        rw [hstep]
        obtain ⟨i1, i2, i3, i4, i5, i6⟩ := ih ({ c with lastCursorUpdate := some now })
          (out ++ [Emit.drawMove x y sid, Emit.cursorMove x y]) hc
        refine ⟨i1, i2, i3, i4, i5, ?_⟩
        rw [i6]
        rw [toEmit_congr c ({ c with lastCursorUpdate := some now }) rfl rfl rfl]
        simp [List.filter_append, Emit.isDraw, QueuedEvent.toEmit]
      | false =>
        have hstep : replayStep now (c, out) (QueuedEvent.qmove x y sid t) =
            (c, out ++ [Emit.drawMove x y sid]) := by
          simp [replayStep, drawMove, hc, hcond]
        rw [hstep]
        obtain ⟨i1, i2, i3, i4, i5, i6⟩ := ih c (out ++ [Emit.drawMove x y sid]) hc
        refine ⟨i1, i2, i3, i4, i5, ?_⟩
        rw [i6]
        simp [List.filter_append, Emit.isDraw, QueuedEvent.toEmit]
    | qend sid t =>
      have hstep : replayStep now (c, out) (QueuedEvent.qend sid t) =
          (c, out ++ [Emit.drawEnd sid]) := by
        simp [replayStep, endDrawing, hc]
      rw [hstep]
      obtain ⟨i1, i2, i3, i4, i5, i6⟩ := ih c (out ++ [Emit.drawEnd sid]) hc
      refine ⟨i1, i2, i3, i4, i5, ?_⟩
      rw [i6]
      simp [List.filter_append, Emit.isDraw, QueuedEvent.toEmit]

theorem processOfflineQueue_spec (c : WSClient) (now : Nat) (hc : c.connected = true) :
    (processOfflineQueue c now).1.offlineQueue = [] ∧
    (processOfflineQueue c now).2.filter Emit.isDraw
      = c.offlineQueue.map (QueuedEvent.toEmit c) := by
  unfold processOfflineQueue
  by_cases hq : c.offlineQueue = []
  · rw [if_pos hq]
    refine ⟨hq, ?_⟩
    rw [hq]
    rfl
  · rw [if_neg hq]
    obtain ⟨r1, r2, r3, r4, r5, r6⟩ := replay_foldl now c.offlineQueue c [] hc
    refine ⟨rfl, ?_⟩
    show (c.offlineQueue.foldl (replayStep now) (c, [])).2.filter Emit.isDraw
      = c.offlineQueue.map (QueuedEvent.toEmit c)
    rw [r6]
    rfl

/-- C7: on reconnection (`handleConnect`), the client replays exactly the
buffered `draw-*` events, in the original FIFO enqueue order, within the
reconnection emission trace (any later send is appended strictly after this
trace), and the offline queue is empty afterwards. -/
theorem replay_fifo_and_queue_empty (c : WSClient) (now : Nat) :
    (handleConnect c now).1.offlineQueue = [] ∧
    (handleConnect c now).2.filter Emit.isDraw
      = c.offlineQueue.map (QueuedEvent.toEmit c) := by
  have h := processOfflineQueue_spec
    ({ c with connected := true, reconnectAttempts := 0, reconnectDelay := 1000 }) now rfl
  refine ⟨h.1, ?_⟩
  show (Emit.joinRoomMsg c.currentRoom ::
      (processOfflineQueue
        ({ c with connected := true, reconnectAttempts := 0, reconnectDelay := 1000 }) now).2).filter
      Emit.isDraw
    = c.offlineQueue.map (QueuedEvent.toEmit c)
  have hjoin : Emit.isDraw (Emit.joinRoomMsg c.currentRoom) = false := rfl
  rw [List.filter_cons, hjoin]
  simp only [Bool.false_eq_true, if_false]
  rw [h.2]
  rw [toEmit_congr c
    ({ c with connected := true, reconnectAttempts := 0, reconnectDelay := 1000 }) rfl rfl rfl]

/-- A connected client, as right after `handleConnect`, with default style. -/
def connectedClient : WSClient :=
  { connected := true, currentRoom := "default", tool := "brush", color := "#000000",
    lineWidth := 5, offlineQueue := [], lastCursorUpdate := none,
    reconnectAttempts := 0, reconnectDelay := 1000 }

set_option maxRecDepth 4000 in
/-- C8 failing input, evaluated: the `mousemove` handler of `client/main.js`
emits one `cursor-move` per pointer event whenever the client is connected,
with no throttling — 100 pointer events (e.g. at 10ms spacing, all inside one
second) produce 100 cursor-move sends, not at most 10. -/
theorem mousemove_cursor_unthrottled :
    ((mousemoveBurst connectedClient (List.replicate 100 ((3 : Int), (4 : Int)))).filter
        Emit.isCursor).length = 100 := by
  decide

end CollabDraw
